import Mathlib

/-!
Verification of the typed-json-db store (a single-file, typed JSON document
store with an optional primary-key index).

The repository ships the test suite and package metadata; the database module
itself (the `JsonDB` store and the `JsonSerializer` codec) is not present, so
every definition below is modelled from the specification (spec.md §3, §4, §6,
§7, §8), restricted to the scalar value fragment the specified properties
exercise (unique identifiers, enumerations over string values, string/int/bool
primitives, and null).  Machine-level JSON text is abstracted to parsed shapes;
the file-system is abstracted to the file's logical content, as the spec
declares the read/write primitives external collaborators.
-/

namespace TJDB

/-- Modelled from the spec: a scalar JSON value as stored in the backing file
(§6).  Nested arrays/objects inside a record are outside the modelled
fragment. -/
inductive JVal where
  | jnull
  | jstr (s : String)
  | jnum (n : Int)
  | jbool (b : Bool)
deriving DecidableEq, Repr

/-- A JSON object: one encoded record, a list of field-name/value pairs. -/
abbrev JObj := List (String × JVal)

/-- Modelled from the spec: the logical content of the backing file (§6).
`absent` is a missing file, `invalidJson` a file whose text does not parse,
`jsonArr` a JSON document whose top-level value is an array of objects, and
`jsonOther` any other valid JSON document. -/
inductive FileContent where
  | absent
  | invalidJson
  | jsonArr (elems : List JObj)
  | jsonOther
deriving DecidableEq, Repr

/-- Modelled from the spec: a runtime field value of a record (§3).  A
unique-identifier carries its canonical string form; an enumeration member
carries its enumeration's value set and the underlying string value it
represents. -/
inductive Value where
  | vNull
  | vStr (s : String)
  | vInt (n : Int)
  | vBool (b : Bool)
  | vUuid (u : String)
  | vEnum (vals : List String) (v : String)
deriving DecidableEq, Repr

/-- Modelled from the spec: the declared semantic type of a field (§3),
restricted to the scalar fragment. -/
inductive FieldType where
  | uuidT
  | enumT (vals : List String)
  | strT
  | intT
  | boolT
deriving DecidableEq, Repr

/-- Modelled from the spec: the Record Type Descriptor — an ordered mapping
from field name to declared semantic type, plus the record type's name used
for runtime type checks (§3). -/
structure Descriptor where
  typeName : String
  fields : List (String × FieldType)
deriving DecidableEq, Repr

/-- Modelled from the spec: one record instance — its runtime type name and
its ordered field values.  Equality is structural (§3). -/
structure Record where
  rtype : String
  fields : List (String × Value)
deriving DecidableEq, Repr

/-- Modelled from the spec: the error kinds of §7, plus `attrError` for a
field access on a record that lacks the field (the host language's attribute
error, not a store error). -/
inductive DBError where
  | invalidPrimaryKey
  | corruptStore
  | typeMismatch
  | duplicateKey
  | notFound
  | noPrimaryKey
  | emptyCriteria
  | malformedValue
  | unknownEnumValue
  | attrError
deriving DecidableEq, Repr

/-- Look up a field value by name in a record's field list (first match). -/
def flookup (k : String) : List (String × Value) → Option Value
  | [] => none
  | p :: ps => if p.1 = k then some p.2 else flookup k ps

/-- Look up a declared field type by name in a descriptor's field list. -/
def flookupT (k : String) : List (String × FieldType) → Option FieldType
  | [] => none
  | p :: ps => if p.1 = k then some p.2 else flookupT k ps

/-- The declared field names of a descriptor, in order. -/
def fieldNames (d : Descriptor) : List String := d.fields.map Prod.fst

/-- Whether one character is a lowercase hexadecimal digit. -/
def isHexDigit (c : Char) : Bool :=
  (Char.ofNat 48 ≤ c && c ≤ Char.ofNat 57) || (Char.ofNat 97 ≤ c && c ≤ Char.ofNat 102)

/-- Modelled from the spec: whether a string is the canonical textual form of
a unique identifier (8-4-4-4-12 lowercase hexadecimal groups), the form
produced by encoding and accepted by decoding (§4.1). -/
def validUuid (s : String) : Bool :=
  let cs := s.toList
  cs.length = 36 &&
  (List.range 36).all (fun i =>
    if i = 8 || i = 13 || i = 18 || i = 23 then cs.getD i ' ' = '-'
    else isHexDigit (cs.getD i ' '))

/-- Modelled from the spec: encode one runtime field value as a JSON value
(§4.1): a unique-identifier to its canonical string form, an enumeration
member to the underlying string value it represents, primitives directly,
null for absent values. -/
def encodeValue : Value → JVal
  | .vNull => .jnull
  | .vStr s => .jstr s
  | .vInt n => .jnum n
  | .vBool b => .jbool b
  | .vUuid u => .jstr u
  | .vEnum _ s => .jstr s

/-- Modelled from the spec: encode one record as a JSON object, field by
field in the record's own field order (§4.1). -/
def encodeRecord (r : Record) : JObj :=
  r.fields.map (fun p => (p.1, encodeValue p.2))

/-- Decode a JSON value with no declared-type guidance: primitives and null
pass through unchanged. -/
def jsonToValue : JVal → Except DBError Value
  | .jnull => .ok .vNull
  | .jstr s => .ok (.vStr s)
  | .jnum n => .ok (.vInt n)
  | .jbool b => .ok (.vBool b)

/-- Modelled from the spec: decode one JSON value driven by the declared
field type (§4.2): a string under a declared unique-identifier parses as a
unique identifier (`malformedValue` if invalid); a string under a declared
enumeration resolves to the member whose underlying value equals the string
(`unknownEnumValue` if none matches); null and primitives pass through. -/
def decodeValue (ft : FieldType) (j : JVal) : Except DBError Value :=
  match ft, j with
  | .uuidT, .jstr s =>
      if validUuid s then .ok (.vUuid s) else .error .malformedValue
  | .enumT vals, .jstr s =>
      if s ∈ vals then .ok (.vEnum vals s) else .error .unknownEnumValue
  | _, _ => jsonToValue j

/-- Decode one named JSON object entry, using the declared type of that field
name when the descriptor declares it. -/
def decodeField (fts : List (String × FieldType)) (p : String × JVal) :
    Except DBError (String × Value) :=
  match flookupT p.1 fts with
  | some ft =>
      match decodeValue ft p.2 with
      | .ok v => .ok (p.1, v)
      | .error e => .error e
  | none =>
      match jsonToValue p.2 with
      | .ok v => .ok (p.1, v)
      | .error e => .error e

/-- Decode the entries of one JSON object, in order. -/
def decodeFields (fts : List (String × FieldType)) :
    List (String × JVal) → Except DBError (List (String × Value))
  | [] => .ok []
  | p :: ps =>
    match decodeField fts p with
    | .error e => .error e
    | .ok f =>
      match decodeFields fts ps with
      | .error e => .error e
      | .ok rest => .ok (f :: rest)

/-- Modelled from the spec: decode one stored JSON object into a record of
the descriptor's type, each entry converted by its declared field type
(§4.2). -/
def decodeRecord (desc : Descriptor) (o : JObj) : Except DBError Record :=
  match decodeFields desc.fields o with
  | .error e => .error e
  | .ok fs => .ok ⟨desc.typeName, fs⟩

/-- Decode every element of the stored array, in order. -/
def decodeAll (desc : Descriptor) : List JObj → Except DBError (List Record)
  | [] => .ok []
  | o :: os =>
    match decodeRecord desc o with
    | .error e => .error e
    | .ok r =>
      match decodeAll desc os with
      | .error e => .error e
      | .ok rs => .ok (r :: rs)

/-- Whether a runtime value conforms to a declared field type.  Null conforms
to every declared type (an absent optional value, §4.2). -/
def valueMatches : FieldType → Value → Bool
  | _, .vNull => true
  | .uuidT, .vUuid u => validUuid u
  | .enumT vals, .vEnum vals2 s => decide (vals2 = vals ∧ s ∈ vals)
  | .strT, .vStr _ => true
  | .intT, .vInt _ => true
  | .boolT, .vBool _ => true
  | _, _ => false

/-- Whether a record's field list conforms, name for name and in order, to a
descriptor's declared field list. -/
def fieldsWellTyped : List (String × FieldType) → List (String × Value) → Bool
  | [], [] => true
  | ft :: fts, f :: fs =>
      decide (f.1 = ft.1) && valueMatches ft.2 f.2 && fieldsWellTyped fts fs
  | _, _ => false

/-- Whether a record is an instance of the descriptor's type: the runtime
type name matches and every field conforms to its declared type. -/
def wellTypedRecord (desc : Descriptor) (r : Record) : Bool :=
  decide (r.rtype = desc.typeName) && fieldsWellTyped desc.fields r.fields

theorem jsonToValue_encode (v : Value) :
    jsonToValue (encodeValue v) =
      .ok (match v with
           | .vUuid u => .vStr u
           | .vEnum _ s => .vStr s
           | w => w) := by
  cases v <;> rfl

/-- Round trip of one value at its declared type. -/
theorem decodeValue_encodeValue (ft : FieldType) (v : Value)
    (h : valueMatches ft v = true) :
    decodeValue ft (encodeValue v) = .ok v := by
  cases ft <;> cases v <;>
    simp_all [valueMatches, decodeValue, encodeValue, jsonToValue]

/-- Modelled from the spec: the Indexed Store (§4.2).  `itemType` is the
configured Record Type Descriptor, `primary_key` the optional primary-key
field name, `data` the authoritative in-memory ordered collection, `index`
the primary-key index (empty when no key is configured), `file` the logical
content of the backing file. -/
structure JsonDB where
  itemType : Descriptor
  primary_key : Option String
  data : List Record
  index : List (Value × Record)
  file : FileContent
deriving DecidableEq, Repr

/-- Look up a record by primary-key value in the index (first match). -/
def alookup (v : Value) : List (Value × Record) → Option Record
  | [] => none
  | p :: ps => if p.1 = v then some p.2 else alookup v ps

/-- A record's primary-key value under field name `k`, with null standing in
for a missing field (never reached on indexed data, where every record has
the field). -/
def pkValD (k : String) (r : Record) : Value :=
  (flookup k r.fields).getD .vNull

/-- The primary-key values of a collection, in order. -/
def keysOf (k : String) (data : List Record) : List Value :=
  data.map (pkValD k)

/-- The index the spec prescribes for a collection: each record keyed by its
primary-key value, in collection order (§3). -/
def indexOf (k : String) (data : List Record) : List (Value × Record) :=
  data.map (fun r => (pkValD k r, r))

/-- Whether every record of a collection has the primary-key field. -/
def allHaveKey (k : String) (data : List Record) : Bool :=
  data.all (fun r => (flookup k r.fields).isSome)

/-- Modelled from the spec: the backing-file content that write-through
persistence leaves after a mutation — the full collection re-encoded as one
JSON array (§3, §4.2). -/
def fileFor (data : List Record) : FileContent :=
  .jsonArr (data.map encodeRecord)

/-- Modelled from the spec: reading the backing file on construction (§4.2,
§6): an absent file counts as an empty array; text that is not valid JSON, or
a valid JSON document whose top level is not an array, is a corrupt store. -/
def loadFile : FileContent → Except DBError (List JObj)
  | .absent => .ok []
  | .invalidJson => .error .corruptStore
  | .jsonArr elems => .ok elems
  | .jsonOther => .error .corruptStore

/-- Modelled from the spec: build the index from a freshly decoded
collection, surfacing a record without the key field as an attribute error
and a duplicate key found in the stored data as a corrupt store (§4.2). -/
def buildIndex (k : String) : List Record → Except DBError (List (Value × Record))
  | [] => .ok []
  | r :: rs =>
    match flookup k r.fields with
    | none => .error .attrError
    | some v =>
      match buildIndex k rs with
      | .error e => .error e
      | .ok rest =>
        if (alookup v rest).isSome then .error .corruptStore
        else .ok ((v, r) :: rest)

/-- The file content the store leaves on disk right after construction: an
absent file is initialized to an empty array, existing content is kept. -/
def initFile : FileContent → FileContent
  | .absent => .jsonArr []
  | f => f

/-- Modelled from the spec: Store construction (§4.2).  Fails with
`invalidPrimaryKey` when the named key field is not in the descriptor; reads
the file (creating an empty array when absent, `corruptStore` on invalid
JSON); decodes every element through the codec; when a primary key is
configured, builds the index, surfacing duplicate stored keys as
`corruptStore`. -/
def construct (desc : Descriptor) (pk : Option String) (file : FileContent) :
    Except DBError JsonDB :=
  match pk with
  | some k =>
    if k ∈ fieldNames desc then
      match loadFile file with
      | .error e => .error e
      | .ok elems =>
        match decodeAll desc elems with
        | .error e => .error e
        | .ok data =>
          match buildIndex k data with
          | .error e => .error e
          | .ok idx => .ok ⟨desc, some k, data, idx, initFile file⟩
    else .error .invalidPrimaryKey
  | none =>
    match loadFile file with
    | .error e => .error e
    | .ok elems =>
      match decodeAll desc elems with
      | .error e => .error e
      | .ok data => .ok ⟨desc, none, data, [], initFile file⟩

/-- Modelled from the spec: `add` (§4.2).  Type check first (`typeMismatch`),
then, when a primary key is configured, read the record's key (the host
language's attribute access) and test membership via the index
(`duplicateKey`); on success append to the collection, insert into the index,
and rewrite the file.  The returned store is the state after the call, also
on failure (unchanged then). -/
def add (db : JsonDB) (item : Record) : JsonDB × Except DBError Unit :=
  if item.rtype = db.itemType.typeName then
    match db.primary_key with
    | some k =>
      match flookup k item.fields with
      | none => (db, .error .attrError)
      | some v =>
        if (alookup v db.index).isSome then (db, .error .duplicateKey)
        else
          ({ db with
              data := db.data ++ [item]
              index := db.index ++ [(v, item)]
              file := fileFor (db.data ++ [item]) }, .ok ())
    | none =>
      ({ db with
          data := db.data ++ [item]
          file := fileFor (db.data ++ [item]) }, .ok ())
  else (db, .error .typeMismatch)

/-- Modelled from the spec: `get` (§4.2).  Requires a primary key
(`noPrimaryKey` otherwise); looks the key up in the index; a missing key is
an explicit not-found result, never an error. -/
def get (db : JsonDB) (key : Value) : Except DBError (Option Record) :=
  match db.primary_key with
  | none => .error .noPrimaryKey
  | some _ => .ok (alookup key db.index)

/-- Whether a record satisfies every criterion: each named field present and
exactly equal to the given value. -/
def matchesCriteria (r : Record) (cs : List (String × Value)) : Bool :=
  cs.all (fun c => decide (flookup c.1 r.fields = some c.2))

/-- Modelled from the spec: `find` (§4.2).  Requires at least one criterion
(`emptyCriteria` otherwise); a full linear scan returning every record whose
named fields all equal the given values — always a list, possibly empty. -/
def find (db : JsonDB) (cs : List (String × Value)) :
    Except DBError (List Record) :=
  if cs.isEmpty then .error .emptyCriteria
  else .ok (db.data.filter (fun r => matchesCriteria r cs))

/-- Replace the first record whose key field equals `key` by `item`. -/
def replaceByKey (k : String) (key : Value) (item : Record) :
    List Record → List Record
  | [] => []
  | r :: rs =>
    if flookup k r.fields = some key then item :: rs
    else r :: replaceByKey k key item rs

/-- Refresh the index entry under `key` with the new record, position
preserved. -/
def updIndex (key : Value) (item : Record) :
    List (Value × Record) → List (Value × Record)
  | [] => []
  | p :: ps => if p.1 = key then (key, item) :: ps else p :: updIndex key item ps

/-- Modelled from the spec: `update` (§4.2).  Requires a primary key
(`noPrimaryKey`), then the type check (`typeMismatch`) before any access to
the record's key field, then `notFound` when no stored record has a matching
key; on success replaces the stored record in place, refreshes the index
entry, and rewrites the file. -/
def update (db : JsonDB) (item : Record) : JsonDB × Except DBError Unit :=
  match db.primary_key with
  | none => (db, .error .noPrimaryKey)
  | some k =>
    if item.rtype = db.itemType.typeName then
      match flookup k item.fields with
      | none => (db, .error .attrError)
      | some key =>
        if (alookup key db.index).isSome then
          ({ db with
              data := replaceByKey k key item db.data
              index := updIndex key item db.index
              file := fileFor (replaceByKey k key item db.data) }, .ok ())
        else (db, .error .notFound)
    else (db, .error .typeMismatch)

/-- Remove the first record whose key field equals `key`. -/
def removeByKey (k : String) (key : Value) : List Record → List Record
  | [] => []
  | r :: rs =>
    if flookup k r.fields = some key then rs
    else r :: removeByKey k key rs

/-- Drop the index entry under `key`. -/
def eraseIndex (key : Value) :
    List (Value × Record) → List (Value × Record)
  | [] => []
  | p :: ps => if p.1 = key then ps else p :: eraseIndex key ps

/-- Modelled from the spec: `remove` (§4.2).  Requires a primary key
(`noPrimaryKey`); removes the record with matching key from the collection
and the index and rewrites the file, returning whether a record was actually
found and removed — a missing key is `false`, not an error. -/
def remove (db : JsonDB) (key : Value) : JsonDB × Except DBError Bool :=
  match db.primary_key with
  | none => (db, .error .noPrimaryKey)
  | some k =>
    if (alookup key db.index).isSome then
      ({ db with
          data := removeByKey k key db.data
          index := eraseIndex key db.index
          file := fileFor (removeByKey k key db.data) }, .ok true)
    else (db, .ok false)

/-- One mutating call against the store. -/
inductive Op where
  | addOp (item : Record)
  | updateOp (item : Record)
  | removeOp (key : Value)

/-- Run one mutating call, returning the resulting store state and the
call's outcome. -/
def mutate (db : JsonDB) : Op → JsonDB × Except DBError Unit
  | .addOp item => add db item
  | .updateOp item => update db item
  | .removeOp key => ((remove db key).1, (remove db key).2.map (fun _ => ()))

/-- The store state after one mutating call, whether or not it succeeded. -/
def applyOp (db : JsonDB) (op : Op) : JsonDB := (mutate db op).1

/-- The store state after a finite sequence of mutating calls. -/
def applyOps (db : JsonDB) (ops : List Op) : JsonDB := ops.foldl applyOp db

/-- The index invariant of §3: a primary key `k` is configured, every stored
record has the key field, the stored key values are pairwise distinct, and
the index is exactly the collection keyed by `k` in collection order. -/
def iwfb (db : JsonDB) (k : String) : Bool :=
  decide (db.primary_key = some k) &&
  allHaveKey k db.data &&
  decide ((keysOf k db.data).Nodup) &&
  decide (db.index = indexOf k db.data)

/-- Whether every record of a collection is an instance of the descriptor's
type. -/
def allTyped (desc : Descriptor) (data : List Record) : Bool :=
  data.all (wellTypedRecord desc)

/-- Full store well-formedness: distinct declared field names, a well-typed
collection, write-through file contents, and — when a primary key is
configured — a declared key field and the index invariant; no index
otherwise. -/
def wfb (db : JsonDB) : Bool :=
  decide ((fieldNames db.itemType).Nodup) &&
  allTyped db.itemType db.data &&
  decide (db.file = fileFor db.data) &&
  (match db.primary_key with
   | none => decide (db.index = [])
   | some k => decide (k ∈ fieldNames db.itemType) && iwfb db k)

theorem flookup_isSome_iff (k : String) (fs : List (String × Value)) :
    (flookup k fs).isSome = true ↔ k ∈ fs.map Prod.fst := by
  induction fs with
  | nil => simp [flookup]
  | cons p ps ih =>
    by_cases h : p.1 = k
    · simp [flookup, h]
    · simp [flookup, h, ih, Ne.symm h]

theorem fieldsWellTyped_names (fts : List (String × FieldType))
    (fs : List (String × Value)) (h : fieldsWellTyped fts fs = true) :
    fs.map Prod.fst = fts.map Prod.fst := by
  induction fts generalizing fs with
  | nil => cases fs with
    | nil => rfl
    | cons f fs => simp [fieldsWellTyped] at h
  | cons ft fts ih =>
    cases fs with
    | nil => simp [fieldsWellTyped] at h
    | cons f fs =>
      simp only [fieldsWellTyped, Bool.and_eq_true, decide_eq_true_eq] at h
      simp [h.1.1, ih fs h.2]

theorem wellTypedRecord_hasKey (desc : Descriptor) (r : Record) (k : String)
    (hw : wellTypedRecord desc r = true) (hk : k ∈ fieldNames desc) :
    (flookup k r.fields).isSome = true := by
  rw [flookup_isSome_iff]
  simp only [wellTypedRecord, Bool.and_eq_true] at hw
  rw [fieldsWellTyped_names desc.fields r.fields hw.2]
  exact hk

theorem flookupT_of_ne (k : String) (p : String × FieldType)
    (fts : List (String × FieldType)) (h : p.1 ≠ k) :
    flookupT k (p :: fts) = flookupT k fts := by
  simp [flookupT, h]

/-- Round trip of a record's field list: decoding the encoded fields under a
descriptor that agrees with `fts` on all the field names in play restores
the fields exactly. -/
theorem decodeFields_encode (big fts : List (String × FieldType))
    (fs : List (String × Value))
    (hw : fieldsWellTyped fts fs = true)
    (hnd : (fts.map Prod.fst).Nodup)
    (hlk : ∀ n ∈ fts.map Prod.fst, flookupT n big = flookupT n fts) :
    decodeFields big (fs.map (fun p => (p.1, encodeValue p.2))) = .ok fs := by
  induction fts generalizing fs with
  | nil =>
    cases fs with
    | nil => rfl
    | cons f fs => simp [fieldsWellTyped] at hw
  | cons ft fts ih =>
    cases fs with
    | nil => simp [fieldsWellTyped] at hw
    | cons f fs =>
      simp only [fieldsWellTyped, Bool.and_eq_true, decide_eq_true_eq] at hw
      obtain ⟨⟨hname, hv⟩, hrest⟩ := hw
      simp only [List.map_cons, List.nodup_cons] at hnd
      have hbig : flookupT f.1 big = some ft.2 := by
        rw [hname, hlk ft.1 (by simp), flookupT, if_pos rfl]
      have hlk2 : ∀ n ∈ fts.map Prod.fst, flookupT n big = flookupT n fts := by
        intro n hn
        rw [hlk n (by simp [hn]), flookupT_of_ne]
        intro heq
        exact hnd.1 (heq ▸ hn)
      have hdv := decodeValue_encodeValue ft.2 f.2 hv
      simp only [List.map_cons, decodeFields, decodeField, hbig, hdv]
      rw [ih fs hrest hnd.2 hlk2]

/-- Round trip of one record through the codec. -/
theorem decodeRecord_encodeRecord (desc : Descriptor) (r : Record)
    (hw : wellTypedRecord desc r = true)
    (hnd : (fieldNames desc).Nodup) :
    decodeRecord desc (encodeRecord r) = .ok r := by
  simp only [wellTypedRecord, Bool.and_eq_true, decide_eq_true_eq] at hw
  simp only [decodeRecord, encodeRecord]
  rw [decodeFields_encode desc.fields desc.fields r.fields hw.2 hnd
    (fun n _ => rfl)]
  rw [← hw.1]

/-- Round trip of a whole collection through the codec. -/
theorem decodeAll_encode (desc : Descriptor) (data : List Record)
    (hw : allTyped desc data = true)
    (hnd : (fieldNames desc).Nodup) :
    decodeAll desc (data.map encodeRecord) = .ok data := by
  induction data with
  | nil => rfl
  | cons r rs ih =>
    simp only [allTyped, List.all_cons, Bool.and_eq_true] at hw
    simp only [List.map_cons, decodeAll,
      decodeRecord_encodeRecord desc r hw.1 hnd, ih hw.2]

theorem alookup_indexOf_eq_none (k : String) (v : Value) (data : List Record) :
    alookup v (indexOf k data) = none ↔ v ∉ keysOf k data := by
  induction data with
  | nil => simp [indexOf, keysOf, alookup]
  | cons r rs ih =>
    simp only [indexOf, keysOf, List.map_cons] at ih ⊢
    by_cases h : pkValD k r = v
    · simp [alookup, h]
    · simp [alookup, h, Ne.symm h, ih]

theorem alookup_indexOf_isSome (k : String) (v : Value) (data : List Record) :
    (alookup v (indexOf k data)).isSome = true ↔ v ∈ keysOf k data := by
  rw [← Decidable.not_not (p := v ∈ keysOf k data), ← alookup_indexOf_eq_none k v data]
  cases alookup v (indexOf k data) <;> simp

theorem alookup_indexOf_mem (k : String) (v : Value) (r : Record)
    (data : List Record) (hnd : (keysOf k data).Nodup)
    (hr : r ∈ data) (hv : flookup k r.fields = some v) :
    alookup v (indexOf k data) = some r := by
  induction data with
  | nil => simp at hr
  | cons s rs ih =>
    simp only [keysOf, List.map_cons, List.nodup_cons] at hnd
    rcases List.mem_cons.mp hr with heq | hmem
    · subst heq
      simp [indexOf, alookup, pkValD, hv]
    · have hvk : v ∈ keysOf k rs :=
        List.mem_map.mpr ⟨r, hmem, by simp [pkValD, hv]⟩
      have hne : pkValD k s ≠ v := fun h => hnd.1 (h ▸ hvk)
      simp only [indexOf, List.map_cons, alookup, if_neg hne]
      exact ih hnd.2 hmem

theorem buildIndex_ok (k : String) (data : List Record)
    (hk : allHaveKey k data = true) (hnd : (keysOf k data).Nodup) :
    buildIndex k data = .ok (indexOf k data) := by
  induction data with
  | nil => rfl
  | cons r rs ih =>
    simp only [allHaveKey, List.all_cons, Bool.and_eq_true] at hk
    simp only [keysOf, List.map_cons, List.nodup_cons] at hnd
    obtain ⟨v, hv⟩ := Option.isSome_iff_exists.mp hk.1
    have hvpk : pkValD k r = v := by simp [pkValD, hv]
    have hnone : alookup v (indexOf k rs) = none :=
      (alookup_indexOf_eq_none k v rs).mpr (hvpk ▸ hnd.1)
    have ih2 := ih hk.2 hnd.2
    simp only [indexOf] at hnone ih2 ⊢
    simp [buildIndex, hv, ih2, hnone, hvpk]

theorem buildIndex_dup (k : String) (data : List Record)
    (hk : allHaveKey k data = true) (hnd : ¬ (keysOf k data).Nodup) :
    buildIndex k data = .error .corruptStore := by
  induction data with
  | nil => simp [keysOf] at hnd
  | cons r rs ih =>
    simp only [allHaveKey, List.all_cons, Bool.and_eq_true] at hk
    obtain ⟨v, hv⟩ := Option.isSome_iff_exists.mp hk.1
    have hvpk : pkValD k r = v := by simp [pkValD, hv]
    by_cases hrs : (keysOf k rs).Nodup
    · have hmem : v ∈ keysOf k rs := by
        by_contra hnot
        apply hnd
        simp only [keysOf, List.map_cons, List.nodup_cons]
        exact ⟨by rw [hvpk]; exact hnot, hrs⟩
      have hsome : (alookup v (indexOf k rs)).isSome = true :=
        (alookup_indexOf_isSome k v rs).mpr hmem
      simp [buildIndex, hv, buildIndex_ok k rs hk.2 hrs, hsome]
    · simp [buildIndex, hv, ih hk.2 hrs]

theorem iwfb_iff (db : JsonDB) (k : String) :
    iwfb db k = true ↔
      db.primary_key = some k ∧ allHaveKey k db.data = true ∧
      (keysOf k db.data).Nodup ∧ db.index = indexOf k db.data := by
  simp [iwfb, Bool.and_eq_true, and_assoc]

theorem allTyped_haveKey (desc : Descriptor) (data : List Record) (k : String)
    (hw : allTyped desc data = true) (hk : k ∈ fieldNames desc) :
    allHaveKey k data = true := by
  simp only [allTyped, List.all_eq_true] at hw
  simp only [allHaveKey, List.all_eq_true]
  exact fun r hr => wellTypedRecord_hasKey desc r k (hw r hr) hk

theorem keysOf_append (k : String) (data : List Record) (r : Record) :
    keysOf k (data ++ [r]) = keysOf k data ++ [pkValD k r] := by
  simp [keysOf]

theorem indexOf_append (k : String) (data : List Record) (r : Record) :
    indexOf k (data ++ [r]) = indexOf k data ++ [(pkValD k r, r)] := by
  simp [indexOf]

theorem keysOf_replaceByKey (k : String) (key : Value) (item : Record)
    (data : List Record) (hitem : flookup k item.fields = some key) :
    keysOf k (replaceByKey k key item data) = keysOf k data := by
  induction data with
  | nil => rfl
  | cons r rs ih =>
    by_cases h : flookup k r.fields = some key
    · simp [replaceByKey, h, keysOf, pkValD, hitem]
    · simp only [replaceByKey, if_neg h, keysOf, List.map_cons]
      rw [show List.map (pkValD k) (replaceByKey k key item rs) =
        keysOf k (replaceByKey k key item rs) from rfl, ih]
      rfl

theorem indexOf_replaceByKey (k : String) (key : Value) (item : Record)
    (data : List Record) (hall : allHaveKey k data = true)
    (hitem : flookup k item.fields = some key) :
    indexOf k (replaceByKey k key item data) = updIndex key item (indexOf k data) := by
  induction data with
  | nil => rfl
  | cons r rs ih =>
    simp only [allHaveKey, List.all_cons, Bool.and_eq_true] at hall
    by_cases h : flookup k r.fields = some key
    · have : pkValD k r = key := by simp [pkValD, h]
      simp [replaceByKey, h, indexOf, updIndex, this, pkValD, hitem]
    · have hne : pkValD k r ≠ key := by
        obtain ⟨v, hv⟩ := Option.isSome_iff_exists.mp hall.1
        simp only [pkValD, hv, Option.getD_some]
        intro heq
        exact h (heq ▸ hv)
      simp only [replaceByKey, if_neg h, indexOf, List.map_cons, updIndex,
        if_neg hne]
      rw [show List.map (fun r => (pkValD k r, r)) (replaceByKey k key item rs) =
        indexOf k (replaceByKey k key item rs) from rfl, ih hall.2]
      rfl

theorem allHaveKey_replaceByKey (k : String) (key : Value) (item : Record)
    (data : List Record) (hall : allHaveKey k data = true)
    (hitem : flookup k item.fields = some key) :
    allHaveKey k (replaceByKey k key item data) = true := by
  induction data with
  | nil => rfl
  | cons r rs ih =>
    simp only [allHaveKey, List.all_cons, Bool.and_eq_true] at hall ⊢
    by_cases h : flookup k r.fields = some key
    · simp only [replaceByKey, if_pos h, List.all_cons, Bool.and_eq_true]
      exact ⟨by simp [hitem], hall.2⟩
    · simp only [replaceByKey, if_neg h, List.all_cons, Bool.and_eq_true]
      exact ⟨hall.1, ih hall.2⟩

theorem removeByKey_sub (k : String) (key : Value) (data : List Record) :
    List.Sublist (removeByKey k key data) data := by
  induction data with
  | nil => simp [removeByKey]
  | cons r rs ih =>
    by_cases h : flookup k r.fields = some key
    · simp only [removeByKey, if_pos h]
      exact List.sublist_cons_self r rs
    · simp only [removeByKey, if_neg h]
      exact ih.cons₂ r

theorem indexOf_removeByKey (k : String) (key : Value) (data : List Record)
    (hall : allHaveKey k data = true) :
    indexOf k (removeByKey k key data) = eraseIndex key (indexOf k data) := by
  induction data with
  | nil => rfl
  | cons r rs ih =>
    simp only [allHaveKey, List.all_cons, Bool.and_eq_true] at hall
    by_cases h : flookup k r.fields = some key
    · have : pkValD k r = key := by simp [pkValD, h]
      simp [removeByKey, h, indexOf, eraseIndex, this]
    · have hne : pkValD k r ≠ key := by
        obtain ⟨v, hv⟩ := Option.isSome_iff_exists.mp hall.1
        simp only [pkValD, hv, Option.getD_some]
        intro heq
        exact h (heq ▸ hv)
      simp only [removeByKey, if_neg h, indexOf, List.map_cons, eraseIndex,
        if_neg hne]
      rw [show List.map (fun r => (pkValD k r, r)) (removeByKey k key rs) =
        indexOf k (removeByKey k key rs) from rfl, ih hall.2]
      rfl

theorem allHaveKey_sub (k : String) (l1 l2 : List Record)
    (hs : List.Sublist l1 l2) (hall : allHaveKey k l2 = true) :
    allHaveKey k l1 = true := by
  simp only [allHaveKey, List.all_eq_true] at hall ⊢
  exact fun r hr => hall r (hs.subset hr)

theorem keysOf_nodup_sub (k : String) (l1 l2 : List Record)
    (hs : List.Sublist l1 l2) (hnd : (keysOf k l2).Nodup) :
    (keysOf k l1).Nodup :=
  List.Nodup.sublist (hs.map (pkValD k)) hnd

/-- On the duplicate-free success path, `add` appends to the collection,
appends to the index, and rewrites the file. -/
theorem add_success (db : JsonDB) (k : String) (item : Record) (v : Value)
    (hpk : db.primary_key = some k)
    (hty : item.rtype = db.itemType.typeName)
    (hfl : flookup k item.fields = some v)
    (hdup : (alookup v db.index).isSome = false) :
    add db item =
      ({ db with
          data := db.data ++ [item]
          index := db.index ++ [(v, item)]
          file := fileFor (db.data ++ [item]) }, .ok ()) := by
  simp [add, hty, hpk, hfl, hdup]

/-- `add` preserves the index invariant, whether it succeeds or fails. -/
theorem add_iwf (db : JsonDB) (k : String) (item : Record)
    (h : iwfb db k = true) : iwfb (add db item).1 k = true := by
  obtain ⟨hpk, hall, hnd, hidx⟩ := (iwfb_iff db k).mp h
  by_cases hty : item.rtype = db.itemType.typeName
  · cases hfl : flookup k item.fields with
    | none => simpa [add, hty, hpk, hfl] using h
    | some v =>
      by_cases hdup : (alookup v db.index).isSome = true
      · simpa [add, hty, hpk, hfl, hdup] using h
      · have hdup2 : (alookup v db.index).isSome = false := by
          simpa using hdup
        have hnotin : v ∉ keysOf k db.data := by
          rw [← alookup_indexOf_isSome k v db.data, ← hidx]
          simp [hdup2]
        have hpkv : pkValD k item = v := by simp [pkValD, hfl]
        rw [add_success db k item v hpk hty hfl hdup2, iwfb_iff]
        refine ⟨hpk, ?_, ?_, ?_⟩
        · show allHaveKey k (db.data ++ [item]) = true
          simp only [allHaveKey, List.all_append, Bool.and_eq_true] at hall ⊢
          exact ⟨hall, by simp [hfl]⟩
        · show (keysOf k (db.data ++ [item])).Nodup
          rw [keysOf_append]
          simp [List.nodup_append, hnd, hpkv, hnotin]
        · show db.index ++ [(v, item)] = indexOf k (db.data ++ [item])
          rw [indexOf_append, ← hidx, hpkv]
  · simpa [add, hty] using h

/-- On the found success path, `update` replaces the matching record in
place, refreshes the index entry, and rewrites the file. -/
theorem update_success (db : JsonDB) (k : String) (item : Record) (key : Value)
    (hpk : db.primary_key = some k)
    (hty : item.rtype = db.itemType.typeName)
    (hfl : flookup k item.fields = some key)
    (hfound : (alookup key db.index).isSome = true) :
    update db item =
      ({ db with
          data := replaceByKey k key item db.data
          index := updIndex key item db.index
          file := fileFor (replaceByKey k key item db.data) }, .ok ()) := by
  simp [update, hty, hpk, hfl, hfound]

/-- `update` preserves the index invariant, whether it succeeds or fails. -/
theorem update_iwf (db : JsonDB) (k : String) (item : Record)
    (h : iwfb db k = true) : iwfb (update db item).1 k = true := by
  obtain ⟨hpk, hall, hnd, hidx⟩ := (iwfb_iff db k).mp h
  by_cases hty : item.rtype = db.itemType.typeName
  · cases hfl : flookup k item.fields with
    | none => simpa [update, hty, hpk, hfl] using h
    | some key =>
      by_cases hfound : (alookup key db.index).isSome = true
      · rw [update_success db k item key hpk hty hfl hfound, iwfb_iff]
        refine ⟨hpk, ?_, ?_, ?_⟩
        · show allHaveKey k (replaceByKey k key item db.data) = true
          exact allHaveKey_replaceByKey k key item db.data hall hfl
        · show (keysOf k (replaceByKey k key item db.data)).Nodup
          rw [keysOf_replaceByKey k key item db.data hfl]
          exact hnd
        · show updIndex key item db.index =
            indexOf k (replaceByKey k key item db.data)
          rw [indexOf_replaceByKey k key item db.data hall hfl, hidx]
      · simpa [update, hty, hpk, hfl, hfound] using h
  · simpa [update, hty, hpk] using h

/-- On the found success path, `remove` drops the matching record from the
collection and the index and rewrites the file. -/
theorem remove_success (db : JsonDB) (k : String) (key : Value)
    (hpk : db.primary_key = some k)
    (hfound : (alookup key db.index).isSome = true) :
    remove db key =
      ({ db with
          data := removeByKey k key db.data
          index := eraseIndex key db.index
          file := fileFor (removeByKey k key db.data) }, .ok true) := by
  simp [remove, hpk, hfound]

/-- `remove` preserves the index invariant, whether it succeeds or fails. -/
theorem remove_iwf (db : JsonDB) (k : String) (key : Value)
    (h : iwfb db k = true) : iwfb (remove db key).1 k = true := by
  obtain ⟨hpk, hall, hnd, hidx⟩ := (iwfb_iff db k).mp h
  by_cases hfound : (alookup key db.index).isSome = true
  · rw [remove_success db k key hpk hfound, iwfb_iff]
    have hsub := removeByKey_sub k key db.data
    refine ⟨hpk, ?_, ?_, ?_⟩
    · show allHaveKey k (removeByKey k key db.data) = true
      exact allHaveKey_sub k _ _ hsub hall
    · show (keysOf k (removeByKey k key db.data)).Nodup
      exact keysOf_nodup_sub k _ _ hsub hnd
    · show eraseIndex key db.index = indexOf k (removeByKey k key db.data)
      rw [indexOf_removeByKey k key db.data hall, hidx]
  · simpa [remove, hpk, hfound] using h

/-- Every single mutating call preserves the index invariant. -/
theorem applyOp_iwf (db : JsonDB) (k : String) (op : Op)
    (h : iwfb db k = true) : iwfb (applyOp db op) k = true := by
  cases op with
  | addOp item => exact add_iwf db k item h
  | updateOp item => exact update_iwf db k item h
  | removeOp key => exact remove_iwf db k key h

/-- Every finite sequence of mutating calls preserves the index invariant. -/
theorem applyOps_iwf (db : JsonDB) (k : String) (ops : List Op)
    (h : iwfb db k = true) : iwfb (applyOps db ops) k = true := by
  induction ops generalizing db with
  | nil => exact h
  | cons op ops ih => exact ih (applyOp db op) (applyOp_iwf db k op h)

theorem wfb_iff_none (db : JsonDB) (hpk : db.primary_key = none) :
    wfb db = true ↔
      (fieldNames db.itemType).Nodup ∧ allTyped db.itemType db.data = true ∧
      db.file = fileFor db.data ∧ db.index = [] := by
  simp [wfb, hpk, and_assoc]

theorem wfb_iff_some (db : JsonDB) (k : String) (hpk : db.primary_key = some k) :
    wfb db = true ↔
      (fieldNames db.itemType).Nodup ∧ allTyped db.itemType db.data = true ∧
      db.file = fileFor db.data ∧ k ∈ fieldNames db.itemType ∧
      iwfb db k = true := by
  simp [wfb, hpk, and_assoc]

theorem mem_replaceByKey (k : String) (key : Value) (item r : Record)
    (data : List Record) (hr : r ∈ replaceByKey k key item data) :
    r = item ∨ r ∈ data := by
  induction data with
  | nil => simp [replaceByKey] at hr
  | cons s rs ih =>
    by_cases h : flookup k s.fields = some key
    · simp only [replaceByKey, if_pos h, List.mem_cons] at hr
      rcases hr with h1 | h1
      · exact Or.inl h1
      · exact Or.inr (List.mem_cons_of_mem s h1)
    · simp only [replaceByKey, if_neg h, List.mem_cons] at hr
      rcases hr with h1 | h1
      · exact Or.inr (h1 ▸ List.mem_cons_self s rs)
      · rcases ih h1 with h2 | h2
        · exact Or.inl h2
        · exact Or.inr (List.mem_cons_of_mem s h2)

theorem allTyped_append (desc : Descriptor) (data : List Record) (item : Record)
    (h : allTyped desc data = true) (hi : wellTypedRecord desc item = true) :
    allTyped desc (data ++ [item]) = true := by
  simp only [allTyped, List.all_append, Bool.and_eq_true] at h ⊢
  exact ⟨h, by simp [hi]⟩

theorem allTyped_replaceByKey (desc : Descriptor) (k : String) (key : Value)
    (item : Record) (data : List Record)
    (h : allTyped desc data = true) (hi : wellTypedRecord desc item = true) :
    allTyped desc (replaceByKey k key item data) = true := by
  simp only [allTyped, List.all_eq_true] at h ⊢
  intro r hr
  rcases mem_replaceByKey k key item r data hr with h1 | h1
  · exact h1 ▸ hi
  · exact h r h1

theorem allTyped_sub (desc : Descriptor) (l1 l2 : List Record)
    (hs : List.Sublist l1 l2) (h : allTyped desc l2 = true) :
    allTyped desc l1 = true := by
  simp only [allTyped, List.all_eq_true] at h ⊢
  exact fun r hr => h r (hs.subset hr)

/-- Whether a mutating call's argument is an instance of the configured
record type (always true for `remove`, whose argument is a key). -/
def opTyped (desc : Descriptor) : Op → Bool
  | .addOp item => wellTypedRecord desc item
  | .updateOp item => wellTypedRecord desc item
  | .removeOp _ => true

/-- On the success path of a store without a primary key, `add` appends and
rewrites the file. -/
theorem add_success_noPk (db : JsonDB) (item : Record)
    (hpk : db.primary_key = none)
    (hty : item.rtype = db.itemType.typeName) :
    add db item =
      ({ db with
          data := db.data ++ [item]
          file := fileFor (db.data ++ [item]) }, .ok ()) := by
  simp [add, hty, hpk]

/-- Every mutating call with a type-correct argument preserves full store
well-formedness, whether it succeeds or fails. -/
theorem mutate_wf (db : JsonDB) (op : Op)
    (h : wfb db = true) (hty : opTyped db.itemType op = true) :
    wfb (mutate db op).1 = true := by
  cases hpk : db.primary_key with
  | none =>
    obtain ⟨hnd, hta, hfile, hidx⟩ := (wfb_iff_none db hpk).mp h
    cases op with
    | addOp item =>
      by_cases hrty : item.rtype = db.itemType.typeName
      · have hstep := add_success_noPk db item hpk hrty
        show wfb (add db item).1 = true
        rw [hstep]
        refine (wfb_iff_none _ ?_).mpr
          ⟨hnd, allTyped_append db.itemType db.data item hta hty, rfl, hidx⟩
        exact hpk
      · show wfb (add db item).1 = true
        simpa [add, hrty] using h
    | updateOp item =>
      show wfb (update db item).1 = true
      simpa [update, hpk] using h
    | removeOp key =>
      show wfb (remove db key).1 = true
      simpa [remove, hpk] using h
  | some k =>
    obtain ⟨hnd, hta, hfile, hk, hiw⟩ := (wfb_iff_some db k hpk).mp h
    obtain ⟨-, hall, hknd, hidx⟩ := (iwfb_iff db k).mp hiw
    cases op with
    | addOp item =>
      by_cases hrty : item.rtype = db.itemType.typeName
      · cases hfl : flookup k item.fields with
        | none =>
          show wfb (add db item).1 = true
          simpa [add, hrty, hpk, hfl] using h
        | some v =>
          by_cases hdup : (alookup v db.index).isSome = true
          · show wfb (add db item).1 = true
            simpa [add, hrty, hpk, hfl, hdup] using h
          · have hdup2 : (alookup v db.index).isSome = false := by
              simpa using hdup
            have hiw2 := add_iwf db k item hiw
            have hstep := add_success db k item v hpk hrty hfl hdup2
            rw [hstep] at hiw2
            show wfb (add db item).1 = true
            rw [hstep]
            refine (wfb_iff_some _ k ?_).mpr
              ⟨hnd, allTyped_append db.itemType db.data item hta hty,
                rfl, hk, hiw2⟩
            exact hpk
      · show wfb (add db item).1 = true
        simpa [add, hrty] using h
    | updateOp item =>
      by_cases hrty : item.rtype = db.itemType.typeName
      · cases hfl : flookup k item.fields with
        | none =>
          show wfb (update db item).1 = true
          simpa [update, hrty, hpk, hfl] using h
        | some key =>
          by_cases hfound : (alookup key db.index).isSome = true
          · have hiw2 := update_iwf db k item hiw
            have hstep := update_success db k item key hpk hrty hfl hfound
            rw [hstep] at hiw2
            show wfb (update db item).1 = true
            rw [hstep]
            refine (wfb_iff_some _ k ?_).mpr
              ⟨hnd, allTyped_replaceByKey db.itemType k key item db.data hta hty,
                rfl, hk, hiw2⟩
            exact hpk
          · show wfb (update db item).1 = true
            simpa [update, hrty, hpk, hfl, hfound] using h
      · show wfb (update db item).1 = true
        simpa [update, hrty, hpk] using h
    | removeOp key =>
      by_cases hfound : (alookup key db.index).isSome = true
      · have hiw2 := remove_iwf db k key hiw
        have hstep := remove_success db k key hpk hfound
        rw [hstep] at hiw2
        show wfb (remove db key).1 = true
        rw [hstep]
        refine (wfb_iff_some _ k ?_).mpr
          ⟨hnd, allTyped_sub db.itemType _ _ (removeByKey_sub k key db.data) hta,
            rfl, hk, hiw2⟩
        exact hpk
      · show wfb (remove db key).1 = true
        simpa [remove, hpk, hfound] using h

/-- Reconstructing a well-formed store from its own backing file restores
it exactly: same collection, same index, same file. -/
theorem construct_id (db : JsonDB) (h : wfb db = true) :
    construct db.itemType db.primary_key db.file = .ok db := by
  cases hpk : db.primary_key with
  | none =>
    obtain ⟨hnd, hta, hfile, hidx⟩ := (wfb_iff_none db hpk).mp h
    rw [hfile]
    simp only [construct, fileFor, loadFile, initFile,
      decodeAll_encode db.itemType db.data hta hnd]
    have : db = ⟨db.itemType, none, db.data, [], fileFor db.data⟩ := by
      cases db with
      | mk it pk d i f =>
        simp only at hpk hidx hfile
        simp [hpk, hidx, hfile]
    conv_rhs => rw [this]
    rfl
  | some k =>
    obtain ⟨hnd, hta, hfile, hk, hiw⟩ := (wfb_iff_some db k hpk).mp h
    obtain ⟨-, hall, hknd, hidx⟩ := (iwfb_iff db k).mp hiw
    rw [hfile]
    simp only [construct, fileFor, loadFile, initFile, if_pos hk,
      decodeAll_encode db.itemType db.data hta hnd,
      buildIndex_ok k db.data hall hknd]
    have : db = ⟨db.itemType, some k, db.data, indexOf k db.data, fileFor db.data⟩ := by
      cases db with
      | mk it pk d i f =>
        simp only at hpk hidx hfile
        simp [hpk, hidx, hfile]
    conv_rhs => rw [this]
    rfl

theorem get_eq (db : JsonDB) (k : String) (v : Value)
    (hpk : db.primary_key = some k) :
    get db v = .ok (alookup v db.index) := by
  simp [get, hpk]

/-- `add` of a record whose key is already in the index fails with
`duplicateKey` and returns the store unchanged. -/
theorem add_dup (db : JsonDB) (k : String) (item : Record) (v : Value)
    (hpk : db.primary_key = some k)
    (hty : item.rtype = db.itemType.typeName)
    (hfl : flookup k item.fields = some v)
    (hdup : (alookup v db.index).isSome = true) :
    add db item = (db, .error .duplicateKey) := by
  simp [add, hty, hpk, hfl, hdup]

theorem alookup_append (v : Value) (l1 l2 : List (Value × Record))
    (h : alookup v l1 = none) : alookup v (l1 ++ l2) = alookup v l2 := by
  induction l1 with
  | nil => rfl
  | cons p ps ih =>
    by_cases hp : p.1 = v
    · simp [alookup, hp] at h
    · simp only [alookup, if_neg hp] at h
      simp only [List.cons_append, alookup, if_neg hp]
      exact ih h

/-- A key held by no record of an invariant-respecting store is absent from
its index. -/
theorem alookup_none_of_no_record (db : JsonDB) (k : String) (key : Value)
    (hiw : iwfb db k = true)
    (habs : ∀ s ∈ db.data, flookup k s.fields ≠ some key) :
    alookup key db.index = none := by
  obtain ⟨hpk, hall, hnd, hidx⟩ := (iwfb_iff db k).mp hiw
  simp only [allHaveKey, List.all_eq_true] at hall
  have hmem : key ∉ keysOf k db.data := by
    intro hm
    obtain ⟨s, hs, hsv⟩ := List.mem_map.mp hm
    obtain ⟨v, hv⟩ := Option.isSome_iff_exists.mp (hall s hs)
    rw [pkValD, hv, Option.getD_some] at hsv
    exact habs s hs (hsv ▸ hv)
  rw [hidx]
  exact (alookup_indexOf_eq_none k key db.data).mpr hmem

/-- A key held by some record of an invariant-respecting store is present in
its index. -/
theorem alookup_isSome_of_record (db : JsonDB) (k : String) (key : Value)
    (hiw : iwfb db k = true)
    (hrec : ∃ s ∈ db.data, flookup k s.fields = some key) :
    (alookup key db.index).isSome = true := by
  obtain ⟨hpk, hall, hnd, hidx⟩ := (iwfb_iff db k).mp hiw
  obtain ⟨s, hs, hsv⟩ := hrec
  have hmem : key ∈ keysOf k db.data :=
    List.mem_map.mpr ⟨s, hs, by simp [pkValD, hsv]⟩
  rw [hidx]
  exact (alookup_indexOf_isSome k key db.data).mpr hmem

deriving instance DecidableEq for Except

/-- The record type of the test suite's scenario (§8): a unique-identifier
`id`, a string `name`, a three-valued `status` enumeration, and an integer
`quantity`, with `id` as primary key. -/
def testDesc : Descriptor :=
  ⟨"TestItem",
   [("id", .uuidT), ("name", .strT),
    ("status", .enumT ["pending", "active", "completed"]), ("quantity", .intT)]⟩

def uuidA : String := "00000000-0000-0000-0000-00000000000a"

def uuidB : String := "00000000-0000-0000-0000-00000000000b"

def itemA : Record :=
  ⟨"TestItem",
   [("id", .vUuid uuidA), ("name", .vStr "Item A"),
    ("status", .vEnum ["pending", "active", "completed"] "pending"),
    ("quantity", .vInt 5)]⟩

def itemB : Record :=
  ⟨"TestItem",
   [("id", .vUuid uuidB), ("name", .vStr "Item B"),
    ("status", .vEnum ["pending", "active", "completed"] "active"),
    ("quantity", .vInt 2)]⟩

/-- A record sharing `itemA`'s primary-key value. -/
def itemA2 : Record :=
  ⟨"TestItem",
   [("id", .vUuid uuidA), ("name", .vStr "Duplicate Item"),
    ("status", .vEnum ["pending", "active", "completed"] "active"),
    ("quantity", .vInt 10)]⟩

/-- A record of a foreign type that lacks the `id` field entirely. -/
def noIdItem : Record := ⟨"NoIdItem", [("name", .vStr "No ID")]⟩

def emptyDb : JsonDB := ⟨testDesc, some "id", [], [], .jsonArr []⟩

def db1 : JsonDB := (add emptyDb itemA).1

def dbNoPk0 : JsonDB := ⟨testDesc, none, [], [], .jsonArr []⟩

def dbNoPk1 : JsonDB := (add dbNoPk0 itemA).1

/-- A store built without a primary key holding two records with the same
key-field value. -/
def dbNoPkDup : JsonDB := (add dbNoPk1 itemA2).1

def wOps : List Op := [.addOp itemB, .updateOp itemA2, .removeOp (.vUuid uuidA)]

/-- Claim C1: decoding is driven by the declared field type, never by the
JSON value's shape: a JSON string under a declared unique-identifier decodes
to the unique-identifier value equal to the original, and a JSON string under
a declared enumeration decodes to the member whose underlying value equals
that string; conversely, encoding maps a unique-identifier to its canonical
string form and an enumeration member to the underlying string value it
represents, not its symbolic name. -/
theorem C1_codec_by_declared_type (u s : String) (vals : List String)
    (hu : validUuid u = true) (hs : s ∈ vals) :
    decodeValue .uuidT (encodeValue (.vUuid u)) = .ok (.vUuid u) ∧
    decodeValue (.enumT vals) (.jstr s) = .ok (.vEnum vals s) ∧
    encodeValue (.vUuid u) = .jstr u ∧
    encodeValue (.vEnum vals s) = .jstr s := by
  refine ⟨?_, ?_, rfl, rfl⟩
  · simp [encodeValue, decodeValue, hu]
  · simp [decodeValue, hs]

theorem C1_codec_by_declared_type_witness :
    decodeValue .uuidT (encodeValue (.vUuid uuidA)) = .ok (.vUuid uuidA) ∧
    decodeValue (.enumT ["pending", "active", "completed"]) (.jstr "active") =
      .ok (.vEnum ["pending", "active", "completed"] "active") ∧
    encodeValue (.vUuid uuidA) = .jstr uuidA ∧
    encodeValue (.vEnum ["pending", "active", "completed"] "active") =
      .jstr "active" :=
  C1_codec_by_declared_type uuidA "active" ["pending", "active", "completed"]
    (by decide) (by decide)

/-- Claim C2: after any successfully completed mutating call (`add`,
`update`, or `remove`) on a well-formed store, constructing a new store over
the same file with the same record type and key restores the resulting store
exactly — same collection, same rebuilt index — and every stored record is
retrievable by `get` on its key. -/
theorem C2_reload_after_mutation (db : JsonDB) (op : Op)
    (hwf : wfb db = true) (hty : opTyped db.itemType op = true)
    (_hok : (mutate db op).2 = .ok ()) :
    construct (mutate db op).1.itemType (mutate db op).1.primary_key
      (mutate db op).1.file = .ok (mutate db op).1 ∧
    ∀ k, (mutate db op).1.primary_key = some k →
      ∀ r ∈ (mutate db op).1.data, ∃ v, flookup k r.fields = some v ∧
        get (mutate db op).1 v = .ok (some r) := by
  have hwf2 := mutate_wf db op hwf hty
  refine ⟨construct_id _ hwf2, ?_⟩
  intro k hpk r hr
  obtain ⟨-, -, -, -, hiw⟩ := (wfb_iff_some _ k hpk).mp hwf2
  obtain ⟨-, hall, hnd, hidx⟩ := (iwfb_iff _ k).mp hiw
  simp only [allHaveKey, List.all_eq_true] at hall
  obtain ⟨v, hv⟩ := Option.isSome_iff_exists.mp (hall r hr)
  refine ⟨v, hv, ?_⟩
  rw [get_eq _ k v hpk, hidx, alookup_indexOf_mem k v r _ hnd hr hv]

theorem C2_reload_after_mutation_witness :
    construct (mutate db1 (Op.addOp itemB)).1.itemType
      (mutate db1 (Op.addOp itemB)).1.primary_key
      (mutate db1 (Op.addOp itemB)).1.file = .ok (mutate db1 (Op.addOp itemB)).1 :=
  (C2_reload_after_mutation db1 (.addOp itemB) (by decide) (by decide)
    (by decide)).1

/-- Claim C3: on a store with a configured primary key that respects the
index invariant, `add` of a type-correct record whose primary-key value
already belongs to a stored record always fails with `duplicateKey`, with no
partial effect — the resulting state (collection, index, and file) is exactly
the state before the call. -/
theorem C3_add_duplicate_no_effect (db : JsonDB) (k : String) (item : Record)
    (hiw : iwfb db k = true)
    (hty : item.rtype = db.itemType.typeName)
    (hdup : ∃ v, flookup k item.fields = some v ∧
      ∃ s ∈ db.data, flookup k s.fields = some v) :
    add db item = (db, .error .duplicateKey) := by
  obtain ⟨v, hv, hrec⟩ := hdup
  have hsome := alookup_isSome_of_record db k v hiw hrec
  have hpk := ((iwfb_iff db k).mp hiw).1
  exact add_dup db k item v hpk hty hv hsome

theorem C3_add_duplicate_no_effect_witness :
    add db1 itemA2 = (db1, .error .duplicateKey) :=
  C3_add_duplicate_no_effect db1 "id" itemA2 (by decide) (by decide)
    ⟨.vUuid uuidA, by decide, itemA, by decide, by decide⟩

/-- Claim C4: on a store satisfying the index invariant for primary key `k`,
after every finite sequence of `add`/`update`/`remove` calls the index size
equals the collection size, and every record currently in the collection is
indexed under its primary-key value, so `get` on that value returns exactly
that record. -/
theorem C4_index_invariant_sequences (db : JsonDB) (k : String) (ops : List Op)
    (hiw : iwfb db k = true) :
    (applyOps db ops).index.length = (applyOps db ops).data.length ∧
    ∀ r ∈ (applyOps db ops).data, ∃ v, flookup k r.fields = some v ∧
      alookup v (applyOps db ops).index = some r ∧
      get (applyOps db ops) v = .ok (some r) := by
  have h2 := applyOps_iwf db k ops hiw
  obtain ⟨hpk, hall, hnd, hidx⟩ := (iwfb_iff _ k).mp h2
  constructor
  · rw [hidx]
    simp [indexOf]
  · intro r hr
    simp only [allHaveKey, List.all_eq_true] at hall
    obtain ⟨v, hv⟩ := Option.isSome_iff_exists.mp (hall r hr)
    have hal : alookup v (applyOps db ops).index = some r := by
      rw [hidx]
      exact alookup_indexOf_mem k v r _ hnd hr hv
    exact ⟨v, hv, hal, by rw [get_eq _ k v hpk, hal]⟩

theorem C4_index_invariant_sequences_witness :
    (applyOps db1 wOps).index.length = (applyOps db1 wOps).data.length ∧
    ∃ v, flookup "id" itemB.fields = some v ∧
      alookup v (applyOps db1 wOps).index = some itemB ∧
      get (applyOps db1 wOps) v = .ok (some itemB) :=
  ⟨(C4_index_invariant_sequences db1 "id" wOps (by decide)).1,
   (C4_index_invariant_sequences db1 "id" wOps (by decide)).2 itemB (by decide)⟩

/-- Claim C5: `find` with no criteria always fails with `emptyCriteria`;
`find` with at least one criterion never fails and returns exactly the
records of the collection whose named fields all equal the given values
(logical AND, exact equality per field) — an empty list when nothing
matches. -/
theorem C5_find_criteria (db : JsonDB) (cs : List (String × Value))
    (hcs : cs ≠ []) :
    find db [] = .error .emptyCriteria ∧
    ∃ res, find db cs = .ok res ∧
      ∀ r, r ∈ res ↔ r ∈ db.data ∧
        ∀ p ∈ cs, flookup p.1 r.fields = some p.2 := by
  refine ⟨rfl, db.data.filter (fun r => matchesCriteria r cs), ?_, ?_⟩
  · cases cs with
    | nil => exact absurd rfl hcs
    | cons c cs2 => rfl
  · intro r
    simp [List.mem_filter, matchesCriteria, List.all_eq_true]

theorem C5_find_criteria_witness :
    find db1 [] = .error .emptyCriteria ∧
    ∃ res,
      find db1 [("status", .vEnum ["pending", "active", "completed"] "pending")] =
        .ok res ∧
      ∀ r, r ∈ res ↔ r ∈ db1.data ∧
        ∀ p ∈ [(("status" : String),
            Value.vEnum ["pending", "active", "completed"] "pending")],
          flookup p.1 r.fields = some p.2 :=
  C5_find_criteria db1
    [("status", .vEnum ["pending", "active", "completed"] "pending")]
    (by decide)

/-- Claim C6: without a configured primary key, `get`, `update`, and `remove`
all fail with `noPrimaryKey`; with one, a missing key is never an error —
`get` on a key held by no record returns an explicit not-found result,
`remove` on such a key returns `false` leaving the store unchanged, and
`remove` on a key held by a record returns `true`. -/
theorem C6_missing_key_not_error (db : JsonDB) (key : Value) (item : Record)
    (k : String) :
    (db.primary_key = none →
      get db key = .error .noPrimaryKey ∧
      (update db item).2 = .error .noPrimaryKey ∧
      (remove db key).2 = .error .noPrimaryKey) ∧
    (iwfb db k = true →
      ((∀ s ∈ db.data, flookup k s.fields ≠ some key) →
        get db key = .ok none ∧ remove db key = (db, .ok false)) ∧
      ((∃ s ∈ db.data, flookup k s.fields = some key) →
        (remove db key).2 = .ok true)) := by
  constructor
  · intro hpk
    exact ⟨by simp [get, hpk], by simp [update, hpk], by simp [remove, hpk]⟩
  · intro hiw
    have hpk := ((iwfb_iff db k).mp hiw).1
    constructor
    · intro habs
      have hnone := alookup_none_of_no_record db k key hiw habs
      exact ⟨by simp [get, hpk, hnone], by simp [remove, hpk, hnone]⟩
    · intro hrec
      have hsome := alookup_isSome_of_record db k key hiw hrec
      simp [remove, hpk, hsome]

theorem C6_missing_key_not_error_witness :
    (get dbNoPk1 (.vUuid uuidB) = .error .noPrimaryKey ∧
     (update dbNoPk1 itemA).2 = .error .noPrimaryKey ∧
     (remove dbNoPk1 (.vUuid uuidB)).2 = .error .noPrimaryKey) ∧
    (get db1 (.vUuid uuidB) = .ok none ∧
     remove db1 (.vUuid uuidB) = (db1, .ok false)) ∧
    (remove db1 (.vUuid uuidA)).2 = .ok true :=
  ⟨(C6_missing_key_not_error dbNoPk1 (.vUuid uuidB) itemA "id").1 (by decide),
   ((C6_missing_key_not_error db1 (.vUuid uuidB) itemA "id").2 (by decide)).1
     (by decide),
   ((C6_missing_key_not_error db1 (.vUuid uuidA) itemA "id").2 (by decide)).2
     ⟨itemA, by decide, by decide⟩⟩

/-- Claim C7: store construction fails with `corruptStore` when the backing
file exists but its content is not valid JSON, and, when a primary key is
configured, construction over stored data that decodes to two records with
the same primary-key value also fails with `corruptStore` — a duplicate key
in the file is surfaced, never kept as two live entries. -/
theorem C7_construct_corrupt (desc : Descriptor) (pk : Option String)
    (k : String) (elems : List JObj) (data : List Record)
    (hpk : ∀ k2, pk = some k2 → k2 ∈ fieldNames desc) :
    construct desc pk .invalidJson = .error .corruptStore ∧
    (k ∈ fieldNames desc → decodeAll desc elems = .ok data →
      allHaveKey k data = true → ¬ (keysOf k data).Nodup →
      construct desc (some k) (.jsonArr elems) = .error .corruptStore) := by
  constructor
  · cases hp : pk with
    | none => simp [construct, loadFile]
    | some k2 => simp [construct, loadFile, hpk k2 hp]
  · intro hk hdec hall hnd
    simp [construct, loadFile, hk, hdec, buildIndex_dup k data hall hnd]

theorem C7_construct_corrupt_witness :
    construct testDesc (some "id") .invalidJson = .error .corruptStore ∧
    construct testDesc (some "id")
      (.jsonArr [encodeRecord itemA, encodeRecord itemA2]) =
      .error .corruptStore :=
  ⟨(C7_construct_corrupt testDesc (some "id") "id" [] []
      (by intro k2 h; injection h with h2; subst h2; decide)).1,
   (C7_construct_corrupt testDesc (some "id") "id"
      [encodeRecord itemA, encodeRecord itemA2] [itemA, itemA2]
      (by intro k2 h; injection h with h2; subst h2; decide)).2
     (by decide) (by decide) (by decide) (by decide)⟩

/-- Claim C8: on a store with a configured primary key, a record whose
primary-key field is null is accepted by `add` as a valid indexable entry;
afterwards `get` on the null key returns that record, and adding a second
record with a null key fails with `duplicateKey`, so at most one record holds
the null key. -/
theorem C8_null_primary_key (db : JsonDB) (k : String) (r1 r2 : Record)
    (hiw : iwfb db k = true)
    (hty1 : r1.rtype = db.itemType.typeName)
    (hty2 : r2.rtype = db.itemType.typeName)
    (hf1 : flookup k r1.fields = some .vNull)
    (hf2 : flookup k r2.fields = some .vNull)
    (hno : ∀ s ∈ db.data, flookup k s.fields ≠ some .vNull) :
    ∃ db2, add db r1 = (db2, .ok ()) ∧
      get db2 .vNull = .ok (some r1) ∧
      add db2 r2 = (db2, .error .duplicateKey) := by
  have hpk := ((iwfb_iff db k).mp hiw).1
  have hnone := alookup_none_of_no_record db k .vNull hiw hno
  have hdup2 : (alookup .vNull db.index).isSome = false := by simp [hnone]
  have hgrow : alookup .vNull (db.index ++ [(.vNull, r1)]) = some r1 := by
    rw [alookup_append _ _ _ hnone]
    simp [alookup]
  refine ⟨{ db with
      data := db.data ++ [r1]
      index := db.index ++ [(.vNull, r1)]
      file := fileFor (db.data ++ [r1]) },
    add_success db k r1 .vNull hpk hty1 hf1 hdup2, ?_, ?_⟩
  · rw [get_eq { db with
        data := db.data ++ [r1]
        index := db.index ++ [(.vNull, r1)]
        file := fileFor (db.data ++ [r1]) } k .vNull hpk]
    rw [show alookup Value.vNull
        ({ db with
            data := db.data ++ [r1]
            index := db.index ++ [(.vNull, r1)]
            file := fileFor (db.data ++ [r1]) } : JsonDB).index = some r1
      from hgrow]
  · refine add_dup _ k r2 .vNull hpk hty2 hf2 ?_
    rw [show alookup Value.vNull
        ({ db with
            data := db.data ++ [r1]
            index := db.index ++ [(.vNull, r1)]
            file := fileFor (db.data ++ [r1]) } : JsonDB).index = some r1
      from hgrow]
    rfl

theorem C8_null_primary_key_witness :
    ∃ db2, add db1 ⟨"TestItem", [("id", .vNull), ("name", .vStr "None ID Test"),
        ("status", .vEnum ["pending", "active", "completed"] "pending"),
        ("quantity", .vInt 0)]⟩ = (db2, .ok ()) ∧
      get db2 .vNull = .ok (some ⟨"TestItem",
        [("id", .vNull), ("name", .vStr "None ID Test"),
         ("status", .vEnum ["pending", "active", "completed"] "pending"),
         ("quantity", .vInt 0)]⟩) ∧
      add db2 ⟨"TestItem", [("id", .vNull), ("name", .vStr "Second None"),
        ("status", .vEnum ["pending", "active", "completed"] "active"),
        ("quantity", .vInt 1)]⟩ = (db2, .error .duplicateKey) :=
  C8_null_primary_key db1 "id"
    ⟨"TestItem", [("id", .vNull), ("name", .vStr "None ID Test"),
      ("status", .vEnum ["pending", "active", "completed"] "pending"),
      ("quantity", .vInt 0)]⟩
    ⟨"TestItem", [("id", .vNull), ("name", .vStr "Second None"),
      ("status", .vEnum ["pending", "active", "completed"] "active"),
      ("quantity", .vInt 1)]⟩
    (by decide) (by decide) (by decide) (by decide) (by decide) (by decide)

/-- Claim C9: on a store with a configured primary key, `update` with an
argument whose runtime type differs from the configured record type always
fails with `typeMismatch`, for every such record — including one lacking the
primary-key field entirely — so the type check precedes any access to the
primary-key attribute and no attribute-access error can escape `update`. -/
theorem C9_update_type_check_first (db : JsonDB) (k : String) (item : Record)
    (hpk : db.primary_key = some k)
    (hty : item.rtype ≠ db.itemType.typeName) :
    update db item = (db, .error .typeMismatch) := by
  simp [update, hpk, hty]

theorem C9_update_type_check_first_witness :
    update db1 noIdItem = (db1, .error .typeMismatch) :=
  C9_update_type_check_first db1 "id" noIdItem (by decide) (by decide)

/-- Claim C10, as stated, is false: a store constructed without a primary key
accepts records with equal key-field values, and a store constructed with a
primary key over the very same file then fails with `corruptStore` rather
than loading a structurally equal collection. -/
theorem C10_interchange_cex :
    (add dbNoPk0 itemA).2 = .ok () ∧
    (add dbNoPk1 itemA2).2 = .ok () ∧
    construct testDesc (some "id") dbNoPkDup.file = .error .corruptStore := by
  refine ⟨?_, ?_, ?_⟩ <;> decide

/-- Claim C10 (amended): for every well-formed store constructed without a
primary key whose records' key-field values are pairwise distinct, a store
constructed with a primary key over the same file and record type loads a
structurally equal collection and serves `get` on each record's key-field
value. -/
theorem C10_interchange_amended (db : JsonDB) (k : String)
    (hwf : wfb db = true) (hpk : db.primary_key = none)
    (hk : k ∈ fieldNames db.itemType)
    (hnd : (keysOf k db.data).Nodup) :
    ∃ db2, construct db.itemType (some k) db.file = .ok db2 ∧
      db2.data = db.data ∧
      ∀ r ∈ db.data, ∃ v, flookup k r.fields = some v ∧
        get db2 v = .ok (some r) := by
  obtain ⟨hfnd, hta, hfile, hidx⟩ := (wfb_iff_none db hpk).mp hwf
  have hall : allHaveKey k db.data = true :=
    allTyped_haveKey db.itemType db.data k hta hk
  refine ⟨⟨db.itemType, some k, db.data, indexOf k db.data, fileFor db.data⟩,
    ?_, rfl, ?_⟩
  · rw [hfile]
    simp only [construct, fileFor, loadFile, initFile, if_pos hk,
      decodeAll_encode db.itemType db.data hta hfnd,
      buildIndex_ok k db.data hall hnd]
  · intro r hr
    simp only [allHaveKey, List.all_eq_true] at hall
    obtain ⟨v, hv⟩ := Option.isSome_iff_exists.mp (hall r hr)
    refine ⟨v, hv, ?_⟩
    rw [get_eq _ k v rfl]
    show Except.ok (alookup v (indexOf k db.data)) = .ok (some r)
    rw [alookup_indexOf_mem k v r db.data hnd hr hv]

theorem C10_interchange_amended_witness :
    ∃ db2, construct dbNoPk1.itemType (some "id") dbNoPk1.file = .ok db2 ∧
      db2.data = dbNoPk1.data ∧
      ∀ r ∈ dbNoPk1.data, ∃ v, flookup "id" r.fields = some v ∧
        get db2 v = .ok (some r) :=
  C10_interchange_amended dbNoPk1 "id" (by decide) (by decide) (by decide)
    (by decide)

end TJDB
